import Mathlib

/-!
# Verification of the slot availability / reservation core of the EV-charging
  reservation front-end

Shallow embedding of the time-slot grid, occupancy calculator, availability
window builder, slot selection (reconcile) policy and reservation submission
flow of `user-front/src/App.tsx`, together with theorems checking the
specification's claims about them.

Conventions of the embedding:
* JS numbers that only ever hold small non-negative integers are `Nat`;
  values that may go negative (`SLOTS.length - occupied.size`) are `Int`;
  the one fractional computation (`Math.round((free / SLOTS.length) * 100)`)
  is carried out in `ℚ` (the float values involved are exact).
* JS strings are `String`; `Set<string>` is a `List String` queried with
  `contains` and measured with `dedup.length` (set semantics).
* Calendar dates are modelled as integer day numbers (`Int`); adding one
  calendar day is `+ 1`.  The human display label (`month/day`) is a pure
  rendering of the date and is not part of the model.
-/

namespace EVCharge

/-- Source: `START_HOUR = 9` from the source configuration. -/
def START_HOUR : Nat := 9

/-- Source: `END_HOUR = 22` from the source configuration. -/
def END_HOUR : Nat := 22

/-- Source: `DAY_END_MINUTES = END_HOUR * 60` from the source configuration. -/
def DAY_END_MINUTES : Nat := END_HOUR * 60

/-- Source: `pad(n) = n.toString().padStart(2, "0")`, zero-pad the decimal
representation of `n` on the left to length 2. -/
def pad (n : Nat) : String :=
  let s := Nat.repr n
  ⟨List.replicate (2 - s.length) '0' ++ s.data⟩

/-- Semantics of `Number(p)` on one piece of a split time string: decimal value of a
non-empty all-digit string, and `0` for anything that is `NaN` in JS (the
conversions in the source are never applied to such pieces).  Stated on the
character list of the string so that it is kernel-computable; the theorem
`toNat?_getD_eq_parseNum` connects it to the `String.toNat?` API. -/
def parseNum (cs : List Char) : Nat :=
  if cs ≠ [] ∧ cs.all Char.isDigit then
    cs.foldl (fun n c => n * 10 + (c.toNat - '0'.toNat)) 0
  else 0

/-- Source: `toMinutes(hhmm)` splits the string on the one-character separator `":"`,
convert the parts to numbers, and return `h * 60 + m` where `h`, `m` are the
first two parts (a missing part is `NaN` in JS, modelled as `0`).  The split
is performed on the underlying character list; `toMinutes_eq_string_api`
shows this agrees with `String.split`. -/
def toMinutes (hhmm : String) : Nat :=
  let parts := (hhmm.data.splitOnP (fun c => c == ':')).map parseNum
  parts.getD 0 0 * 60 + parts.getD 1 0

/-- Source: `fromMinutes(mins) = pad(floor(mins / 60)) ++ ":" ++ pad(mins % 60)`. -/
def fromMinutes (mins : Nat) : String :=
  pad (mins / 60) ++ ":" ++ pad (mins % 60)

/-- Source: `daySlots()` pushes, for each hour `h` from `START_HOUR` to `END_HOUR - 1`
push `pad(h) ++ ":00"` then `pad(h) ++ ":30"`. -/
def daySlots : List String :=
  (List.range (END_HOUR - START_HOUR)).flatMap (fun i =>
    [pad (START_HOUR + i) ++ ":00", pad (START_HOUR + i) ++ ":30"])

/-- Source: `SLOTS = daySlots()`. -/
def SLOTS : List String := daySlots

/-- Source: `endTime(start, durationMin) = fromMinutes(toMinutes(start) + durationMin)`. -/
def endTime (start : String) (durationMin : Nat) : String :=
  fromMinutes (toMinutes start + durationMin)

/-! ### Occupancy calculator -/

/-- The two time fields of a reservation that the occupancy expansion reads. -/
structure Reservation where
  startTime : String
  endTime : String
  deriving DecidableEq

/-- The `while (current < end) { occupied.add(...); current += 30 }` walk, in
minutes: the stepped minute values visited by the loop. -/
def expandWalk (current endMinutes : Nat) : List Nat :=
  if current < endMinutes then current :: expandWalk (current + 30) endMinutes else []
termination_by endMinutes - current
decreasing_by omega

/-- The occupied slot labels accumulated over a bucket's reservations:
for each reservation walk from `toMinutes(startTime)` to `toMinutes(endTime)`
in 30-minute steps, adding `fromMinutes` of each stepped minute. -/
def occupiedSlots (reservations : List Reservation) : List String :=
  reservations.flatMap (fun reservation =>
    (expandWalk (toMinutes reservation.startTime) (toMinutes reservation.endTime)).map
      fromMinutes)

/-- Semantics of `Math.round` of a (non-negative, exactly representable) JS number:
round half away from zero, i.e. half towards positive infinity here. -/
def jsRound (x : ℚ) : ℤ := ⌊x + 1 / 2⌋

/-- Source: `free = Math.max(0, SLOTS.length - occupied.size)` (over the integers,
as in JS, where the subtraction may go negative). -/
def freeCount (totalSlots occupiedCount : Nat) : ℤ :=
  max 0 ((totalSlots : ℤ) - (occupiedCount : ℤ))

/-- Source: `freePct = Math.round((free / SLOTS.length) * 100)`. -/
def freePct (totalSlots occupiedCount : Nat) : ℤ :=
  jsRound (((freeCount totalSlots occupiedCount : ℤ) : ℚ) / (totalSlots : ℚ) * 100)

/-- Source: `color = freePct > 66 ? "bg-emerald-500" : freePct > 33 ? "bg-amber-500"
: "bg-rose-500"`. -/
def colorOf (pct : ℤ) : String :=
  if pct > 66 then "bg-emerald-500" else if pct > 33 then "bg-amber-500" else "bg-rose-500"

/-! ### Availability window builder -/

/-- One per-date group of reservations returned by
`GET /reservations/by-session`. -/
structure SessionBucket where
  sessionId : Nat
  name : String
  reservations : List Reservation
  deriving DecidableEq

/-- One entry of the availability strip.  Calendar dates are integer day
numbers; the `month/day` display label is a pure rendering of the date and is
kept out of the integer-day date model. -/
structure StripEntry where
  dateISO : Int
  freePct : ℤ
  color : String
  deriving DecidableEq

/-- Source: `session?.reservations` feeding the occupied `Set`: an absent bucket
leaves the set empty.  `dedup` gives the `Set` its set semantics. -/
def bucketOccupied (session : Option SessionBucket) : List String :=
  match session with
  | some bucket => (occupiedSlots bucket.reservations).dedup
  | none => []

/-- The per-date body of the strip-assembly loop: locate the bucket of the
selected session, expand its occupancy, and compute `freePct` and `color`. -/
def stripEntryFor (sessionId : Nat) (iso : Int) (sessions : List SessionBucket) : StripEntry :=
  let session := sessions.find? (fun item => item.sessionId == sessionId)
  let occupied := bucketOccupied session
  let pct := freePct SLOTS.length occupied.length
  { dateISO := iso, freePct := pct, color := colorOf pct }

/-- Source: `for (offset = -3; offset <= 10; offset += 1) range.push(base + offset)`,
the 14 calendar days anchored at the center date. -/
def windowRange (centerDate : Int) : List Int :=
  (List.range 14).map (fun i : Nat => centerDate + ((i : Int) - 3))

/-- The strip produced by the window build, one entry per date of the range,
in range order. -/
def buildStrips (centerDate : Int) (sessionId : Nat)
    (fetchSessions : Int → List SessionBucket) : List StripEntry :=
  (windowRange centerDate).map (fun iso => stripEntryFor sessionId iso (fetchSessions iso))

/-- Model of `Promise.all` index bookkeeping: each completion stores its own result at
its own index, in an arbitrary completion order. -/
def settleAt (results : Nat → α) : List Nat → (Nat → Option α) → Nat → Option α
  | [], acc => acc
  | i :: rest, acc =>
      settleAt results rest (fun j => if j = i then some (results i) else acc j)

/-- The array `Promise.all` delivers: position `i` holds the result of task
`i` once task `i` has completed (`none` would mean it never completed). -/
def promiseAll (results : Nat → α) (completionOrder : List Nat) (n : Nat) : List (Option α) :=
  (List.range n).map (settleAt results completionOrder (fun _ => none))

/-- The window build with the per-date fetches resolving in an explicit
completion order: fetch task `i` returns `(range[i], sessions of range[i])`,
`Promise.all` reassembles by index, and the strip loop runs over the
assembled responses.  The `getD` defaults are unreachable once every task has
completed. -/
def buildStripsScheduled (centerDate : Int) (sessionId : Nat)
    (fetchSessions : Int → List SessionBucket) (completionOrder : List Nat) : List StripEntry :=
  let range := windowRange centerDate
  let responses := promiseAll
    (fun i => (range.getD i 0, fetchSessions (range.getD i 0))) completionOrder range.length
  responses.map (fun response =>
    let pair := response.getD (0, [])
    stripEntryFor sessionId pair.1 pair.2)

/-! ### Slot selection (reconcile) policy -/

/-- The start-time reconcile effect: keep a selection that still fits before
closing; otherwise prefer the latest fitting unoccupied slot (reverse scan),
falling back to the earliest fitting slot ignoring occupancy.  The
`≠ startTime` guards mirror the source's `preferred !== startTime` /
`fallback !== startTime` checks (a skipped `setStartTime` leaves the state
unchanged). -/
def reconcileStartTime (startTime : String) (durationMin : Nat)
    (occupiedSet : List String) : String :=
  if toMinutes startTime + durationMin ≤ DAY_END_MINUTES then
    startTime
  else
    match SLOTS.reverse.find? (fun slot =>
        decide (toMinutes slot + durationMin ≤ DAY_END_MINUTES) && !(occupiedSet.contains slot)) with
    | some preferred =>
      if preferred ≠ startTime then preferred
      else
        match SLOTS.find? (fun slot => decide (toMinutes slot + durationMin ≤ DAY_END_MINUTES)) with
        | some fallback => if fallback ≠ startTime then fallback else startTime
        | none => startTime
    | none =>
      match SLOTS.find? (fun slot => decide (toMinutes slot + durationMin ≤ DAY_END_MINUTES)) with
      | some fallback => if fallback ≠ startTime then fallback else startTime
      | none => startTime

/-! ### Reservation submission flow (`handleReserve`) -/

/-- The body of the `verify` response. -/
structure VerifyResponse where
  valid : Bool
  conflict : Bool
  message : String
  deriving DecidableEq

/-- A network request issued by `handleReserve`. -/
inductive ApiCall where
  | verify (plate : String) (date : Int) (startTime endTimeLabel : String) (sessionId : Nat)
  | create (sessionId : Nat) (plate : String) (date : Int) (startTime endTimeLabel : String)
      (contactEmail : String)
  deriving DecidableEq

/-- The observable outcome of one `handleReserve` action. -/
structure ReserveOutcome where
  calls : List ApiCall
  error : Option String
  startTime : String
  step : Nat
  reservationId : Option String
  plateRegistered : Option Bool
  deriving DecidableEq

/-- Source: `handleReserve`, with the two network responses injected (`verifyResp`,
`createdId`): guard on a missing token, unverified plate and a selection
overrunning closing time; then `verify`; on `conflict` surface the server's
message and stop; otherwise `create` and advance to step 4. -/
def handleReserve (hasToken plateVerified : Bool) (plate : String) (date : Int)
    (sessionId : Nat) (startTime : String) (durationMin : Nat) (contactEmail : String)
    (prevPlateRegistered : Option Bool) (verifyResp : VerifyResponse) (createdId : String) :
    ReserveOutcome :=
  if !hasToken then
    { calls := [], error := none, startTime := startTime, step := 3,
      reservationId := none, plateRegistered := prevPlateRegistered }
  else if !plateVerified then
    { calls := [], error := some "차량 번호 확인을 먼저 진행해 주세요.", startTime := startTime,
      step := 2, reservationId := none, plateRegistered := prevPlateRegistered }
  else if DAY_END_MINUTES < toMinutes startTime + durationMin then
    { calls := [], error := some "이용 종료 시간이 운영 시간(22:00)을 초과합니다.",
      startTime := startTime, step := 3, reservationId := none,
      plateRegistered := prevPlateRegistered }
  else
    let verifyCall := ApiCall.verify plate date startTime (endTime startTime durationMin) sessionId
    if verifyResp.conflict then
      { calls := [verifyCall], error := some verifyResp.message, startTime := startTime,
        step := 3, reservationId := none, plateRegistered := some true }
    else
      { calls := [verifyCall,
          ApiCall.create sessionId plate date startTime (endTime startTime durationMin)
            contactEmail],
        error := none, startTime := startTime, step := 4, reservationId := some createdId,
        plateRegistered := prevPlateRegistered }

/-! ### Stale-window suppression (the `cancelled` guard) -/

/-- The visible state the availability effect writes. -/
structure ViewState where
  stripData : List StripEntry
  occupiedSet : List String
  error : Option String
  availabilityLoading : Bool
  deriving DecidableEq

/-- What a finished window build wants to commit. -/
inductive LoadResult where
  | ok (strips : List StripEntry) (occupied : List String)
  | fail (message : String)
  deriving DecidableEq

/-- Interleaving events: `start id` is the effect body of build `id` starting
to run (React has already run the previous effect's cleanup, which sets that
build's `cancelled` flag); `resolve id r` is build `id`'s joint fetch
settling with result `r`. -/
inductive LoadEvent where
  | start (id : Nat)
  | resolve (id : Nat) (r : LoadResult)

/-- Loader state: the visible state, the id of the build whose cleanup has
not yet run, and each build's `cancelled` flag. -/
structure LoaderState where
  view : ViewState
  current : Option Nat
  cancelled : Nat → Bool

/-- Committing a resolved build to the visible state: on success set the
strip and the occupied set, on failure set the error; either way the
`finally` clears the loading flag. -/
def applyResult (v : ViewState) : LoadResult → ViewState
  | .ok strips occupied =>
      { v with stripData := strips, occupiedSet := occupied, availabilityLoading := false }
  | .fail message => { v with error := some message, availabilityLoading := false }

/-- One event step.  A starting build clears the error, raises the loading
flag, and cancels the previous build (its cleanup ran).  A resolving build
checks its own `cancelled` flag and, when cancelled, changes nothing. -/
def loadStep (s : LoaderState) : LoadEvent → LoaderState
  | .start id =>
      { view := { s.view with error := none, availabilityLoading := true },
        current := some id,
        cancelled := fun j => if s.current = some j then true else s.cancelled j }
  | .resolve id r =>
      if s.cancelled id then s else { s with view := applyResult s.view r }

/-- Run a sequence of interleaving events. -/
def runLoads (s : LoaderState) (events : List LoadEvent) : LoaderState :=
  events.foldl loadStep s

theorem isEmpty_eq_data (s : String) : s.isEmpty = s.data.isEmpty := by
  by_cases h : s = ""
  · subst h; rfl
  · have h1 : s.isEmpty = false := by
      cases hb : s.isEmpty with
      | false => rfl
      | true => exact absurd ((String.isEmpty_iff s).1 hb) h
    have h2 : s.data.isEmpty = false := by
      cases hl : s.data with
      | nil => exact absurd (String.ext (by rw [hl])) h
      | cons a as => rfl
    rw [h1, h2]

/-- Evaluation: `parseNum` is `String.toNat?` with `NaN` (`none`) collapsed to `0`. -/
theorem toNat?_getD_eq_parseNum (s : String) : s.toNat?.getD 0 = parseNum s.data := by
  by_cases h1 : s.data = []
  · simp [String.toNat?, String.isNat, isEmpty_eq_data, h1, parseNum]
  · by_cases h2 : s.data.all Char.isDigit
    · simp [String.toNat?, String.isNat, isEmpty_eq_data, String.all_eq, String.foldl_eq,
        h1, h2, parseNum]
    · simp [String.toNat?, String.isNat, isEmpty_eq_data, String.all_eq, h1, h2, parseNum]

/-- The character-list formulation of `toMinutes` agrees with the one through
`String.split` / `String.toNat?` (the literal reading of
`hhmm.split(":").map(Number)`). -/
theorem toMinutes_eq_string_api (s : String) :
    toMinutes s =
      ((s.split (fun c => c == ':')).map (fun p => p.toNat?.getD 0)).getD 0 0 * 60 +
        ((s.split (fun c => c == ':')).map (fun p => p.toNat?.getD 0)).getD 1 0 := by
  have hmk : ((fun p : String => p.toNat?.getD 0) ∘ String.mk) = parseNum :=
    funext fun l => toNat?_getD_eq_parseNum ⟨l⟩
  rw [String.split_of_valid, List.map_map, hmk, toMinutes]

/-! ### Decimal digit round-trip facts used for the label/minute conversions -/

theorem digitChar_toNat {d : Nat} (h : d < 10) : (Nat.digitChar d).toNat = 48 + d := by
  interval_cases d <;> rfl

theorem digitChar_isDigit {d : Nat} (h : d < 10) : (Nat.digitChar d).isDigit = true := by
  interval_cases d <;> rfl

theorem toDigitsCore_append (b : Nat) :
    ∀ (f n : Nat) (acc : List Char),
      Nat.toDigitsCore b f n acc = Nat.toDigitsCore b f n [] ++ acc
  | 0, _, _ => rfl
  | f + 1, n, acc => by
    simp only [Nat.toDigitsCore]
    by_cases hq : n / b = 0
    · simp [hq]
    · simp only [hq, if_false]
      rw [toDigitsCore_append b f (n / b) [Nat.digitChar (n % b)],
        toDigitsCore_append b f (n / b) (Nat.digitChar (n % b) :: acc)]
      simp

theorem toDigitsCore_foldl :
    ∀ (f n : Nat), n < f → ∀ v : Nat,
      (Nat.toDigitsCore 10 f n []).foldl (fun a c => a * 10 + (c.toNat - '0'.toNat)) v =
        v * 10 ^ (Nat.toDigitsCore 10 f n []).length + n
  | 0, n, h => absurd h (Nat.not_lt_zero n)
  | f + 1, n, h => fun v => by
    have hm : n % 10 < 10 := Nat.mod_lt _ (by norm_num)
    simp only [Nat.toDigitsCore]
    by_cases hq : n / 10 = 0
    · have hn : n < 10 := by omega
      simp only [hq, if_pos, List.foldl_cons, List.foldl_nil, List.length_cons,
        List.length_nil, if_true]
      rw [digitChar_toNat hm]
      have h48 : '0'.toNat = 48 := rfl
      have hmod : n % 10 = n := Nat.mod_eq_of_lt hn
      simp only [h48, hmod, pow_one]
      omega
    · simp only [hq, if_false]
      rw [toDigitsCore_append 10 f (n / 10) [Nat.digitChar (n % 10)]]
      have hlt : n / 10 < f := by
        have h1 : n / 10 < n := Nat.div_lt_self (by omega) (by norm_num)
        omega
      rw [List.foldl_append, toDigitsCore_foldl f (n / 10) hlt v]
      simp only [List.foldl_cons, List.foldl_nil, List.length_append, List.length_cons,
        List.length_nil]
      rw [digitChar_toNat hm]
      have hpow : v * 10 ^ ((Nat.toDigitsCore 10 f (n / 10) []).length + (0 + 1)) =
          v * 10 ^ (Nat.toDigitsCore 10 f (n / 10) []).length * 10 := by ring
      rw [hpow]
      have h48 : '0'.toNat = 48 := rfl
      rw [h48]
      omega

theorem toDigitsCore_all_digits :
    ∀ (f n : Nat) (acc : List Char), (∀ c ∈ acc, c.isDigit = true) →
      ∀ c ∈ Nat.toDigitsCore 10 f n acc, c.isDigit = true
  | 0, _, _, hacc => hacc
  | f + 1, n, acc, hacc => by
    have hm : n % 10 < 10 := Nat.mod_lt _ (by norm_num)
    simp only [Nat.toDigitsCore]
    by_cases hq : n / 10 = 0
    · simp only [hq, if_pos]
      intro c hc
      rcases List.mem_cons.1 hc with h | h
      · subst h; exact digitChar_isDigit hm
      · exact hacc c h
    · simp only [hq, if_false]
      refine toDigitsCore_all_digits f (n / 10) _ ?_
      intro c hc
      rcases List.mem_cons.1 hc with h | h
      · subst h; exact digitChar_isDigit hm
      · exact hacc c h

theorem toDigits_ne_nil (n : Nat) : Nat.toDigits 10 n ≠ [] := by
  rw [Nat.toDigits]
  simp only [Nat.toDigitsCore]
  by_cases hq : n / 10 = 0
  · simp [hq]
  · simp only [hq, if_false]
    rw [toDigitsCore_append 10 n (n / 10) [Nat.digitChar (n % 10)]]
    simp

theorem repr_data (n : Nat) : (Nat.repr n).data = Nat.toDigits 10 n := rfl

theorem pad_data (n : Nat) :
    (pad n).data = List.replicate (2 - (Nat.toDigits 10 n).length) '0' ++ Nat.toDigits 10 n :=
  rfl

theorem foldl_replicate_zero (k : Nat) :
    (List.replicate k '0').foldl (fun a c => a * 10 + (c.toNat - '0'.toNat)) 0 = 0 := by
  induction k with
  | zero => rfl
  | succ k ih => simpa [List.replicate_succ] using ih

theorem pad_all_digits (n : Nat) : ∀ c ∈ (pad n).data, c.isDigit = true := by
  rw [pad_data]
  intro c hc
  rcases List.mem_append.1 hc with h | h
  · rw [List.eq_of_mem_replicate h]; rfl
  · exact toDigitsCore_all_digits (n + 1) n [] (by intro c hc; simp at hc) c h

theorem pad_no_colon (n : Nat) : ∀ c ∈ (pad n).data, ¬((c == ':') = true) := by
  intro c hc hbeq
  have h1 : c = ':' := eq_of_beq hbeq
  have h2 : c.isDigit = true := pad_all_digits n c hc
  rw [h1] at h2
  exact absurd h2 (by decide)

/-- Parsing the zero-padded decimal representation recovers the number. -/
theorem parseNum_pad (n : Nat) : parseNum (pad n).data = n := by
  rw [parseNum, if_pos]
  · rw [pad_data, List.foldl_append, foldl_replicate_zero, Nat.toDigits,
      toDigitsCore_foldl (n + 1) n (Nat.lt_succ_self n) 0]
    simp
  · constructor
    · rw [pad_data]
      intro hnil
      exact toDigits_ne_nil n (by simpa using (List.append_eq_nil.1 hnil).2)
    · rw [List.all_eq_true]
      exact pad_all_digits n

theorem colon_data : (":" : String).data = [':'] := rfl

/-- Splitting `pad a ++ ":" ++ pad b` at the colon gives the two components. -/
theorem splitOnP_pad_pair (a b : Nat) :
    (pad a ++ ":" ++ pad b).data.splitOnP (fun c => c == ':') =
      [(pad a).data, (pad b).data] := by
  have hdata : (pad a ++ ":" ++ pad b).data = (pad a).data ++ ':' :: (pad b).data := by
    simp [String.data_append, colon_data]
  rw [hdata, List.splitOnP_first (fun c => c == ':') (pad a).data (pad_no_colon a) ':' rfl,
    List.splitOnP_eq_single (fun c => c == ':') (pad b).data (pad_no_colon b)]

/-- Evaluation of `toMinutes` on a label assembled from padded components. -/
theorem toMinutes_pad_pair (a b : Nat) : toMinutes (pad a ++ ":" ++ pad b) = a * 60 + b := by
  rw [toMinutes]
  simp only [splitOnP_pad_pair, List.map_cons, List.map_nil, parseNum_pad]
  rfl

example : toMinutes "09:00" = 540 := by decide
example : toMinutes "21:30" = 1290 := by decide
example : fromMinutes 600 = "10:00" := by decide
example : SLOTS.length = 26 := by decide
example : SLOTS.head? = some "09:00" ∧ SLOTS.getLast? = some "21:30" := by decide

/-! ### Order facts about `find?` on a strictly increasing list -/

/-- On a list strictly increasing under `f`, a reverse scan finds the
`f`-largest element satisfying the predicate. -/
theorem find?_reverse_max {α : Type} {f : α → Nat} {p : α → Bool} :
    ∀ {l : List α}, l.Pairwise (fun a b => f a < f b) → ∀ {r : α},
      l.reverse.find? p = some r →
      r ∈ l ∧ p r = true ∧ ∀ x ∈ l, p x = true → f x ≤ f r := by
  intro l
  induction l with
  | nil => intro _ r h; simp at h
  | cons a t ih =>
    intro hsort r h
    have hpair := List.pairwise_cons.1 hsort
    rw [List.reverse_cons, List.find?_append] at h
    cases hrev : t.reverse.find? p with
    | some r' =>
      rw [hrev] at h
      have hr : r' = r := by simpa using h
      subst hr
      obtain ⟨hr1, hr2, hr3⟩ := ih hpair.2 hrev
      refine ⟨List.mem_cons_of_mem a hr1, hr2, ?_⟩
      intro x hx hpx
      rcases List.mem_cons.1 hx with rfl | hx2
      · exact le_of_lt (hpair.1 r' hr1)
      · exact hr3 x hx2 hpx
    | none =>
      rw [hrev] at h
      simp only [Option.none_or] at h
      by_cases hpa : p a
      · rw [List.find?_cons_of_pos _ hpa] at h
        have hra : a = r := by simpa using h
        subst hra
        refine ⟨List.mem_cons_self a t, hpa, ?_⟩
        intro x hx hpx
        rcases List.mem_cons.1 hx with rfl | hx2
        · exact le_rfl
        · exact absurd hpx (by
            have := List.find?_eq_none.1 hrev x (List.mem_reverse.2 hx2)
            simpa using this)
      · rw [List.find?_cons_of_neg _ hpa, List.find?_nil] at h
        exact absurd h (by simp)

/-- On a list strictly increasing under `f`, a forward scan finds the
`f`-smallest element satisfying the predicate. -/
theorem find?_forward_min {α : Type} {f : α → Nat} {p : α → Bool} :
    ∀ {l : List α}, l.Pairwise (fun a b => f a < f b) → ∀ {r : α},
      l.find? p = some r →
      r ∈ l ∧ p r = true ∧ ∀ x ∈ l, p x = true → f r ≤ f x := by
  intro l
  induction l with
  | nil => intro _ r h; simp at h
  | cons a t ih =>
    intro hsort r h
    have hpair := List.pairwise_cons.1 hsort
    by_cases hpa : p a
    · rw [List.find?_cons_of_pos _ hpa] at h
      have hra : a = r := by simpa using h
      subst hra
      refine ⟨List.mem_cons_self a t, hpa, ?_⟩
      intro x hx _
      rcases List.mem_cons.1 hx with rfl | hx2
      · exact le_rfl
      · exact le_of_lt (hpair.1 x hx2)
    · rw [List.find?_cons_of_neg _ hpa] at h
      obtain ⟨hr1, hr2, hr3⟩ := ih hpair.2 h
      refine ⟨List.mem_cons_of_mem a hr1, hr2, ?_⟩
      intro x hx hpx
      rcases List.mem_cons.1 hx with rfl | hx2
      · exact absurd hpx hpa
      · exact hr3 x hx2 hpx

/-- The slot grid is strictly increasing in start minutes. -/
theorem SLOTS_sorted : SLOTS.Pairwise (fun a b => toMinutes a < toMinutes b) := by decide

/-! ### The expansion walk visits exactly the 30-minute steps below the end -/

theorem mem_expandWalk_aux :
    ∀ (fuel s e m : Nat), e - s ≤ fuel →
      (m ∈ expandWalk s e ↔ ∃ k, m = s + 30 * k ∧ m < e) := by
  intro fuel
  induction fuel with
  | zero =>
    intro s e m h
    rw [expandWalk, if_neg (by omega)]
    simp only [List.not_mem_nil, false_iff, not_exists, not_and]
    intro k hk
    omega
  | succ f ih =>
    intro s e m h
    rw [expandWalk]
    by_cases hlt : s < e
    · rw [if_pos hlt, List.mem_cons, ih (s + 30) e m (by omega)]
      constructor
      · rintro (rfl | ⟨k, rfl, hk⟩)
        · exact ⟨0, by omega, hlt⟩
        · exact ⟨k + 1, by ring, hk⟩
      · rintro ⟨k, rfl, hk⟩
        cases k with
        | zero => left; omega
        | succ k2 => right; exact ⟨k2, by ring, hk⟩
    · rw [if_neg hlt]
      simp only [List.not_mem_nil, false_iff, not_exists, not_and]
      intro k hk
      omega

/-! ### `Promise.all` index bookkeeping -/

theorem settleAt_not_mem {α : Type} (results : Nat → α) :
    ∀ (order : List Nat) (acc : Nat → Option α) (i : Nat), i ∉ order →
      settleAt results order acc i = acc i := by
  intro order
  induction order with
  | nil => intro acc i _; rfl
  | cons j rest ih =>
    intro acc i hi
    rw [settleAt, ih _ _ (fun hmem => hi (List.mem_cons_of_mem j hmem))]
    rw [if_neg (fun he => hi (by rw [he]; exact List.mem_cons_self j rest))]

theorem settleAt_mem {α : Type} (results : Nat → α) :
    ∀ (order : List Nat) (acc : Nat → Option α) (i : Nat), i ∈ order →
      settleAt results order acc i = some (results i) := by
  intro order
  induction order with
  | nil => intro acc i hi; simp at hi
  | cons j rest ih =>
    intro acc i hi
    by_cases hrest : i ∈ rest
    · exact ih _ _ hrest
    · have hij : i = j := by
        rcases List.mem_cons.1 hi with he | he
        · exact he
        · exact absurd he hrest
      subst hij
      rw [settleAt, settleAt_not_mem results rest _ i hrest, if_pos rfl]

/-- Once every one of the `n` tasks has completed, the array `Promise.all`
delivers is the results in task-index order, whatever the completion order. -/
theorem promiseAll_complete {α : Type} (results : Nat → α) (completionOrder : List Nat)
    (n : Nat) (h : ∀ i < n, i ∈ completionOrder) :
    promiseAll results completionOrder n = (List.range n).map (fun i => some (results i)) := by
  rw [promiseAll]
  apply List.map_congr_left
  intro i hi
  exact settleAt_mem results completionOrder _ i (h i (List.mem_range.1 hi))

/-! ### Window range facts -/

theorem windowRange_length (centerDate : Int) : (windowRange centerDate).length = 14 := by
  simp [windowRange]

theorem windowRange_getD (centerDate : Int) (i : Nat) (h : i < 14) :
    (windowRange centerDate).getD i 0 = centerDate + ((i : Int) - 3) := by
  rw [windowRange, List.getD_eq_getElem?_getD]
  simp [List.getElem?_map, List.getElem?_range, h]

theorem stripEntryFor_dateISO (sessionId : Nat) (iso : Int) (sessions : List SessionBucket) :
    (stripEntryFor sessionId iso sessions).dateISO = iso := rfl

/-- With every fetch completed, the scheduled build coincides with the
order-free one. -/
theorem buildStripsScheduled_eq (centerDate : Int) (sessionId : Nat)
    (fetchSessions : Int → List SessionBucket) (completionOrder : List Nat)
    (h : ∀ i < 14, i ∈ completionOrder) :
    buildStripsScheduled centerDate sessionId fetchSessions completionOrder =
      buildStrips centerDate sessionId fetchSessions := by
  rw [buildStripsScheduled]
  have hlen : (windowRange centerDate).length = 14 := windowRange_length centerDate
  rw [promiseAll_complete _ _ _ (by rw [hlen]; exact h), hlen]
  rw [List.map_map, buildStrips, windowRange, List.map_map]
  apply List.map_congr_left
  intro i hi
  have hig : i < 14 := List.mem_range.1 hi
  simp only [Function.comp, Option.getD_some]
  have hg := windowRange_getD centerDate i hig
  rw [windowRange] at hg
  rw [hg]


/-! ### Reconcile policy: closed forms of the two fallback steps -/

theorem reconcile_eq_preferred (startTime : String) (durationMin : Nat)
    (occupiedSet : List String)
    (hover : DAY_END_MINUTES < toMinutes startTime + durationMin) {r : String}
    (hfind : SLOTS.reverse.find? (fun slot =>
        decide (toMinutes slot + durationMin ≤ DAY_END_MINUTES) &&
          !(occupiedSet.contains slot)) = some r) :
    reconcileStartTime startTime durationMin occupiedSet = r := by
  have hp := List.find?_some hfind
  rw [Bool.and_eq_true] at hp
  have hfit : toMinutes r + durationMin ≤ DAY_END_MINUTES := of_decide_eq_true hp.1
  have hne : r ≠ startTime := by
    intro he
    rw [he] at hfit
    omega
  rw [reconcileStartTime, if_neg (by omega), hfind]
  simp [hne]

theorem reconcile_eq_fallback (startTime : String) (durationMin : Nat)
    (occupiedSet : List String)
    (hover : DAY_END_MINUTES < toMinutes startTime + durationMin)
    (hnone : SLOTS.reverse.find? (fun slot =>
        decide (toMinutes slot + durationMin ≤ DAY_END_MINUTES) &&
          !(occupiedSet.contains slot)) = none) {r : String}
    (hfind : SLOTS.find? (fun slot =>
        decide (toMinutes slot + durationMin ≤ DAY_END_MINUTES)) = some r) :
    reconcileStartTime startTime durationMin occupiedSet = r := by
  have hp := List.find?_some hfind
  have hfit : toMinutes r + durationMin ≤ DAY_END_MINUTES := of_decide_eq_true hp
  have hne : r ≠ startTime := by
    intro he
    rw [he] at hfit
    omega
  rw [reconcileStartTime, if_neg (by omega), hnone, hfind]
  simp [hne]

/-- C2: when the current start-time selection no longer fits before closing,
the replacement is picked by the two-step fallback: the latest slot (reverse
scan) that fits and is unoccupied; failing that, the earliest slot that fits,
ignoring occupancy.  On the spec's fixture (duration 120, occupied 21:00 and
20:30, current start 21:00) the new start is 20:00. -/
theorem reconcile_two_step_fallback (startTime : String) (durationMin : Nat)
    (occupiedSet : List String)
    (hover : DAY_END_MINUTES < toMinutes startTime + durationMin) :
    ((∃ s ∈ SLOTS, toMinutes s + durationMin ≤ DAY_END_MINUTES ∧
        occupiedSet.contains s = false) →
      reconcileStartTime startTime durationMin occupiedSet ∈ SLOTS ∧
      toMinutes (reconcileStartTime startTime durationMin occupiedSet) + durationMin ≤
        DAY_END_MINUTES ∧
      occupiedSet.contains (reconcileStartTime startTime durationMin occupiedSet) = false ∧
      (∀ s ∈ SLOTS, toMinutes s + durationMin ≤ DAY_END_MINUTES →
        occupiedSet.contains s = false →
        toMinutes s ≤ toMinutes (reconcileStartTime startTime durationMin occupiedSet))) ∧
    ((∀ s ∈ SLOTS, toMinutes s + durationMin ≤ DAY_END_MINUTES →
        occupiedSet.contains s = true) →
     (∃ s ∈ SLOTS, toMinutes s + durationMin ≤ DAY_END_MINUTES) →
      reconcileStartTime startTime durationMin occupiedSet ∈ SLOTS ∧
      toMinutes (reconcileStartTime startTime durationMin occupiedSet) + durationMin ≤
        DAY_END_MINUTES ∧
      (∀ s ∈ SLOTS, toMinutes s + durationMin ≤ DAY_END_MINUTES →
        toMinutes (reconcileStartTime startTime durationMin occupiedSet) ≤ toMinutes s)) ∧
    reconcileStartTime "21:00" 120 ["21:00", "20:30"] = "20:00" := by
  refine ⟨?_, ?_, by decide⟩
  · rintro ⟨s, hs, hsfit, hsfree⟩
    have hsome : (SLOTS.reverse.find? (fun slot =>
        decide (toMinutes slot + durationMin ≤ DAY_END_MINUTES) &&
          !(occupiedSet.contains slot))).isSome :=
      List.find?_isSome.2 ⟨s, List.mem_reverse.2 hs, by rw [hsfree]; simp [hsfit]⟩
    obtain ⟨r, hr⟩ := Option.isSome_iff_exists.1 hsome
    rw [reconcile_eq_preferred startTime durationMin occupiedSet hover hr]
    obtain ⟨h1, h2, h3⟩ := find?_reverse_max (f := toMinutes) SLOTS_sorted hr
    rw [Bool.and_eq_true] at h2
    refine ⟨h1, of_decide_eq_true h2.1, by simpa using h2.2, ?_⟩
    intro x hx hxfit hxfree
    exact h3 x hx (by rw [hxfree]; simp [hxfit])
  · rintro hall ⟨s, hs, hsfit⟩
    have hnone : SLOTS.reverse.find? (fun slot =>
        decide (toMinutes slot + durationMin ≤ DAY_END_MINUTES) &&
          !(occupiedSet.contains slot)) = none := by
      refine List.find?_eq_none.2 (fun x hx hpx => ?_)
      have hx2 := List.mem_reverse.1 hx
      rw [Bool.and_eq_true] at hpx
      have hcon := hall x hx2 (of_decide_eq_true hpx.1)
      rw [hcon] at hpx
      simp at hpx
    have hsome : (SLOTS.find? (fun slot =>
        decide (toMinutes slot + durationMin ≤ DAY_END_MINUTES))).isSome :=
      List.find?_isSome.2 ⟨s, hs, by simp [hsfit]⟩
    obtain ⟨r, hr⟩ := Option.isSome_iff_exists.1 hsome
    rw [reconcile_eq_fallback startTime durationMin occupiedSet hover hnone hr]
    obtain ⟨h1, h2, h3⟩ := find?_forward_min (f := toMinutes) SLOTS_sorted hr
    exact ⟨h1, of_decide_eq_true h2, fun x hx hxfit => h3 x hx (by simp [hxfit])⟩

theorem reconcile_two_step_fallback_witness :
    reconcileStartTime "21:00" 120 ["21:00", "20:30"] = "20:00" :=
  (reconcile_two_step_fallback "21:00" 120 ["21:00", "20:30"] (by decide)).2.2

/-- C3: a start-time selection that still fits before closing is returned
unchanged, even when it is in the occupied set. -/
theorem reconcile_keeps_fitting_selection (startTime : String) (durationMin : Nat)
    (occupiedSet : List String)
    (hfit : toMinutes startTime + durationMin ≤ DAY_END_MINUTES) :
    reconcileStartTime startTime durationMin occupiedSet = startTime := by
  rw [reconcileStartTime, if_pos hfit]

theorem reconcile_keeps_fitting_selection_witness :
    toMinutes "09:00" + 60 ≤ DAY_END_MINUTES ∧
    reconcileStartTime "09:00" 60 ["09:00"] = "09:00" :=
  ⟨by decide, reconcile_keeps_fitting_selection "09:00" 60 ["09:00"] (by decide)⟩

/-- C4 counterexample: the occupied set has just changed to contain the
current selection "09:00" (duration 60 still fits before closing), yet the
reconcile recompute returns the very same occupied slot instead of
reassigning it to a free one. -/
theorem reconcile_occupied_selection_kept :
    reconcileStartTime "09:00" 60 ["09:00"] = "09:00" ∧
    (["09:00"] : List String).contains "09:00" = true := by decide

/-- C4 as amended: the reconcile effect re-runs whenever the occupied set
changes, but it reassigns only when the current selection overruns closing
time; in that case (and when a fitting free slot exists) the replacement is a
fitting free slot.  A still-fitting selection is left unchanged even if its
slot just became occupied. -/
theorem reconcile_on_occupancy_change (startTime : String) (durationMin : Nat)
    (occupiedSet : List String) :
    (toMinutes startTime + durationMin ≤ DAY_END_MINUTES →
      reconcileStartTime startTime durationMin occupiedSet = startTime) ∧
    (DAY_END_MINUTES < toMinutes startTime + durationMin →
      (∃ s ∈ SLOTS, toMinutes s + durationMin ≤ DAY_END_MINUTES ∧
        occupiedSet.contains s = false) →
      occupiedSet.contains (reconcileStartTime startTime durationMin occupiedSet) = false ∧
      toMinutes (reconcileStartTime startTime durationMin occupiedSet) + durationMin ≤
        DAY_END_MINUTES) := by
  constructor
  · intro h
    rw [reconcileStartTime, if_pos h]
  · rintro hover ⟨s, hs, hsfit, hsfree⟩
    have hsome : (SLOTS.reverse.find? (fun slot =>
        decide (toMinutes slot + durationMin ≤ DAY_END_MINUTES) &&
          !(occupiedSet.contains slot))).isSome :=
      List.find?_isSome.2 ⟨s, List.mem_reverse.2 hs, by rw [hsfree]; simp [hsfit]⟩
    obtain ⟨r, hr⟩ := Option.isSome_iff_exists.1 hsome
    rw [reconcile_eq_preferred startTime durationMin occupiedSet hover hr]
    have hp2 := List.find?_some hr
    rw [Bool.and_eq_true] at hp2
    exact ⟨by simpa using hp2.2, of_decide_eq_true hp2.1⟩

theorem reconcile_on_occupancy_change_witness :
    reconcileStartTime "21:00" 120 ["20:00"] ≠ "20:00" ∨
    (["20:00"] : List String).contains (reconcileStartTime "21:00" 120 ["20:00"]) = false :=
  Or.inr ((reconcile_on_occupancy_change "21:00" 120 ["20:00"]).2 (by decide)
    ⟨"19:30", by decide, by decide, by decide⟩).1

/-- C5: the occupancy expansion of a reservation visits exactly the
30-minute steps from its start (inclusive) to its end (exclusive); a
10:00-11:30 reservation on an otherwise empty bucket yields exactly the
labels 10:00, 10:30, 11:00. -/
theorem occupancy_expansion_steps (r : Reservation) (m : Nat) :
    (m ∈ expandWalk (toMinutes r.startTime) (toMinutes r.endTime) ↔
      ∃ k, m = toMinutes r.startTime + 30 * k ∧ m < toMinutes r.endTime) ∧
    (occupiedSlots [{ startTime := "10:00", endTime := "11:30" }]).dedup =
      ["10:00", "10:30", "11:00"] := by
  constructor
  · exact mem_expandWalk_aux _ _ _ m le_rfl
  · rw [occupiedSlots]
    simp only [List.flatMap_cons, List.flatMap_nil, List.append_nil]
    have h1 : toMinutes "10:00" = 600 := by decide
    have h2 : toMinutes "11:30" = 690 := by decide
    have h3 : expandWalk 600 690 = [600, 630, 660] := by
      rw [expandWalk]
      norm_num
      rw [expandWalk]
      norm_num
      rw [expandWalk]
      norm_num
      rw [expandWalk]
      norm_num
    show ((expandWalk (toMinutes "10:00") (toMinutes "11:30")).map fromMinutes).dedup = _
    rw [h1, h2, h3]
    decide

/-- C6: the per-day free percentage is
`round(100 * max(0, total - occupied) / total)`, it does not increase as the
occupied count grows, and the color tier uses strict thresholds at 66 and 33
(so 67 and 34 land in the higher tier). -/
theorem freePct_formula_mono_tiers (total occ occ1 occ2 : Nat) (hmono : occ1 ≤ occ2)
    (p : ℤ) :
    freePct total occ = jsRound (100 * max 0 ((total : ℚ) - (occ : ℚ)) / (total : ℚ)) ∧
    freePct total occ2 ≤ freePct total occ1 ∧
    (66 < p → colorOf p = "bg-emerald-500") ∧
    (33 < p → p ≤ 66 → colorOf p = "bg-amber-500") ∧
    (p ≤ 33 → colorOf p = "bg-rose-500") := by
  refine ⟨?_, ?_, ?_, ?_, ?_⟩
  · rw [freePct, freeCount]
    congr 1
    push_cast
    ring
  · rw [freePct, freePct, jsRound, jsRound]
    apply Int.floor_le_floor
    have hfree : freeCount total occ2 ≤ freeCount total occ1 := by
      rw [freeCount, freeCount]
      have : (total : ℤ) - (occ2 : ℤ) ≤ (total : ℤ) - (occ1 : ℤ) := by
        have := Int.ofNat_le.2 hmono
        omega
      exact max_le_max le_rfl this
    have hq : ((freeCount total occ2 : ℤ) : ℚ) ≤ ((freeCount total occ1 : ℤ) : ℚ) :=
      Int.cast_le.2 hfree
    rcases Nat.eq_zero_or_pos total with h0 | hpos
    · rw [h0]
      norm_num
    · have hposq : (0 : ℚ) < (total : ℚ) := by exact_mod_cast hpos
      have hdiv := (div_le_div_iff_of_pos_right hposq).2 hq
      have hmul := mul_le_mul_of_nonneg_right hdiv (by norm_num : (0 : ℚ) ≤ 100)
      linarith
  · intro h
    rw [colorOf, if_pos h]
  · intro h1 h2
    rw [colorOf, if_neg (by omega), if_pos h1]
  · intro h
    rw [colorOf, if_neg (by omega), if_neg (by omega)]

theorem freePct_formula_mono_tiers_witness :
    freePct 26 10 ≤ freePct 26 9 ∧
    colorOf 67 = "bg-emerald-500" ∧ colorOf 34 = "bg-amber-500" :=
  ⟨(freePct_formula_mono_tiers 26 9 9 10 (by decide) 67).2.1,
   (freePct_formula_mono_tiers 26 9 9 10 (by decide) 67).2.2.1 (by decide),
   (freePct_formula_mono_tiers 26 9 9 10 (by decide) 34).2.2.2.1 (by decide) (by decide)⟩

/-- C1: every completion order of the 14 per-date fetches yields the same
strip as the order-free build: exactly 14 entries whose dates are the center
date plus offsets -3 .. +10, in that offset order. -/
theorem window_build_fourteen_ordered (centerDate : Int) (sessionId : Nat)
    (fetchSessions : Int → List SessionBucket) (completionOrder : List Nat)
    (h : ∀ i < 14, i ∈ completionOrder) :
    buildStripsScheduled centerDate sessionId fetchSessions completionOrder =
      buildStrips centerDate sessionId fetchSessions ∧
    (buildStripsScheduled centerDate sessionId fetchSessions completionOrder).length = 14 ∧
    (buildStripsScheduled centerDate sessionId fetchSessions completionOrder).map
        StripEntry.dateISO =
      (List.range 14).map (fun i : Nat => centerDate + ((i : Int) - 3)) := by
  have he := buildStripsScheduled_eq centerDate sessionId fetchSessions completionOrder h
  refine ⟨he, ?_, ?_⟩
  · rw [he, buildStrips, List.length_map, windowRange_length]
  · rw [he, buildStrips, List.map_map, windowRange, List.map_map]
    apply List.map_congr_left
    intro i _
    rfl

theorem window_build_fourteen_ordered_witness :
    (buildStripsScheduled 0 1 (fun _ => []) ((List.range 14).reverse)).length = 14 :=
  (window_build_fourteen_ordered 0 1 (fun _ => []) ((List.range 14).reverse)
    (by decide)).2.1

/-- C9: a window date whose fetched sessions hold no bucket for the selected
session is treated as an empty occupancy set: its strip entry is the normal
one with a 100 free percentage, and it still appears in the built strip (the
build never fails on an absent bucket). -/
theorem absent_bucket_full_free (sessionId : Nat) (iso centerDate : Int)
    (fetchSessions : Int → List SessionBucket)
    (hmem : iso ∈ windowRange centerDate)
    (habsent : ∀ bucket ∈ fetchSessions iso, bucket.sessionId ≠ sessionId) :
    stripEntryFor sessionId iso (fetchSessions iso) =
      { dateISO := iso, freePct := 100, color := "bg-emerald-500" } ∧
    ({ dateISO := iso, freePct := 100, color := "bg-emerald-500" } : StripEntry) ∈
      buildStrips centerDate sessionId fetchSessions := by
  have hfind : (fetchSessions iso).find? (fun item => item.sessionId == sessionId) = none := by
    refine List.find?_eq_none.2 (fun b hb => ?_)
    simpa using habsent b hb
  have hentry : stripEntryFor sessionId iso (fetchSessions iso) =
      { dateISO := iso, freePct := 100, color := "bg-emerald-500" } := by
    rw [stripEntryFor, hfind]
    have hlen : SLOTS.length = 26 := by decide
    have hocc : (bucketOccupied none).length = 0 := rfl
    have hpct : freePct SLOTS.length (bucketOccupied none).length = 100 := by
      rw [hlen, hocc]
      norm_num [freePct, freeCount, jsRound, Int.floor_eq_iff]
    simp only [hpct]
    rfl
  refine ⟨hentry, ?_⟩
  rw [buildStrips, ← hentry]
  exact List.mem_map_of_mem _ hmem

theorem absent_bucket_full_free_witness :
    stripEntryFor 1 0 ((fun _ => [⟨2, "세션 2", []⟩]) (0 : Int)) =
      { dateISO := 0, freePct := 100, color := "bg-emerald-500" } :=
  (absent_bucket_full_free 1 0 0 (fun _ => [⟨2, "세션 2", []⟩])
    (by decide) (by decide)).1

/-- C10: the minute/label conversions are mutually inverse:
`toMinutes (fromMinutes m) = m` for every natural `m`, and
`fromMinutes (toMinutes s) = s` for every zero-padded `HH:MM` string
`s = pad h ++ ":" ++ pad m`. -/
theorem minutes_label_roundtrip :
    (∀ m : Nat, toMinutes (fromMinutes m) = m) ∧
    (∀ h m : Nat, h < 24 → m < 60 →
      fromMinutes (toMinutes (pad h ++ ":" ++ pad m)) = pad h ++ ":" ++ pad m) := by
  constructor
  · intro m
    rw [fromMinutes, toMinutes_pad_pair]
    omega
  · intro h m _ hm
    rw [toMinutes_pad_pair, fromMinutes]
    have h1 : (h * 60 + m) / 60 = h := by omega
    have h2 : (h * 60 + m) % 60 = m := by omega
    rw [h1, h2]

theorem minutes_label_roundtrip_witness :
    toMinutes (fromMinutes 754) = 754 ∧
    fromMinutes (toMinutes (pad 9 ++ ":" ++ pad 30)) = pad 9 ++ ":" ++ pad 30 :=
  ⟨minutes_label_roundtrip.1 754,
   minutes_label_roundtrip.2 9 30 (by decide) (by decide)⟩

/-- C7: a `verify` response with `conflict = true` makes `handleReserve`
surface the server's message and stop: the only network call of the action is
the verify call itself (no create request, no automatic reselection or
resubmission — the start time, step and reservation id are untouched); a
create call is only ever present when the verify response had
`conflict = false`. -/
theorem verify_conflict_blocks_create (plate : String) (date : Int) (sessionId : Nat)
    (startTime contactEmail createdId : String) (durationMin : Nat)
    (prevReg : Option Bool) (resp : VerifyResponse)
    (hfit : toMinutes startTime + durationMin ≤ DAY_END_MINUTES) :
    (resp.conflict = true →
      handleReserve true true plate date sessionId startTime durationMin contactEmail
          prevReg resp createdId =
        { calls := [ApiCall.verify plate date startTime (endTime startTime durationMin)
            sessionId],
          error := some resp.message, startTime := startTime, step := 3,
          reservationId := none, plateRegistered := some true }) ∧
    (∀ (sid2 : Nat) (plate2 : String) (date2 : Int) (st2 et2 em2 : String),
      ApiCall.create sid2 plate2 date2 st2 et2 em2 ∈
        (handleReserve true true plate date sessionId startTime durationMin contactEmail
          prevReg resp createdId).calls →
      resp.conflict = false) := by
  constructor
  · intro hc
    rw [handleReserve]
    simp only [Bool.not_true, Bool.false_eq_true, if_false, if_neg (by omega : ¬ DAY_END_MINUTES < toMinutes startTime + durationMin), hc, if_true]
  · intro sid2 plate2 date2 st2 et2 em2 hmem
    cases hc : resp.conflict with
    | false => rfl
    | true =>
      rw [handleReserve] at hmem
      simp only [Bool.not_true, Bool.false_eq_true, if_false,
        if_neg (by omega : ¬ DAY_END_MINUTES < toMinutes startTime + durationMin), hc,
        if_true] at hmem
      simp at hmem

theorem verify_conflict_blocks_create_witness :
    handleReserve true true "12가3456" 0 1 "10:00" 60 "a@b.c" none
        ⟨true, true, "이미 예약된 시간입니다."⟩ "rid" =
      { calls := [ApiCall.verify "12가3456" 0 "10:00" (endTime "10:00" 60) 1],
        error := some "이미 예약된 시간입니다.", startTime := "10:00", step := 3,
        reservationId := none, plateRegistered := some true } :=
  (verify_conflict_blocks_create "12가3456" 0 1 "10:00" "a@b.c" "rid" 60 none
    ⟨true, true, "이미 예약된 시간입니다."⟩ (by decide)).1 rfl

theorem loadStep_resolve_not_cancelled (s : LoaderState) (id : Nat) (r : LoadResult)
    (h : s.cancelled id = false) :
    loadStep s (.resolve id r) = { s with view := applyResult s.view r } := by
  rw [loadStep]
  simp [h]

theorem loadStep_resolve_cancelled (s : LoaderState) (id : Nat) (r : LoadResult)
    (h : s.cancelled id = true) :
    loadStep s (.resolve id r) = s := by
  rw [loadStep]
  simp [h]

/-- C8: when window build A starts and build B starts before A resolves,
B's start runs A's cleanup (setting A's `cancelled` flag), so whichever order
the two resolutions then arrive in, the visible state holds exactly B's
result; a resolution whose build is cancelled changes nothing at all (strip,
occupied set and error included). -/
theorem stale_window_discarded (s0 : LoaderState) (A B : Nat) (rA rB : LoadResult)
    (hAB : A ≠ B) (hcurr : s0.current ≠ some B) (hcanc : s0.cancelled B = false) :
    (runLoads s0 [.start A, .start B, .resolve B rB, .resolve A rA]).view =
      applyResult { s0.view with error := none, availabilityLoading := true } rB ∧
    (runLoads s0 [.start A, .start B, .resolve A rA, .resolve B rB]).view =
      applyResult { s0.view with error := none, availabilityLoading := true } rB ∧
    (∀ (s : LoaderState) (id : Nat) (r : LoadResult), s.cancelled id = true →
      loadStep s (.resolve id r) = s) := by
  have h2B : (loadStep (loadStep s0 (.start A)) (.start B)).cancelled B = false := by
    show (if (some A : Option Nat) = some B then true
      else if s0.current = some B then true else s0.cancelled B) = false
    rw [if_neg (by simpa using hAB), if_neg hcurr, hcanc]
  have h2A : (loadStep (loadStep s0 (.start A)) (.start B)).cancelled A = true := by
    show (if (some A : Option Nat) = some A then true
      else if s0.current = some A then true else s0.cancelled A) = true
    rw [if_pos rfl]
  refine ⟨?_, ?_, fun s id r hs => loadStep_resolve_cancelled s id r hs⟩
  · show (loadStep (loadStep (loadStep (loadStep s0 (.start A)) (.start B))
      (.resolve B rB)) (.resolve A rA)).view = _
    rw [loadStep_resolve_not_cancelled _ _ _ h2B]
    have hstep := loadStep_resolve_cancelled
      { view := applyResult (loadStep (loadStep s0 (.start A)) (.start B)).view rB,
        current := (loadStep (loadStep s0 (.start A)) (.start B)).current,
        cancelled := (loadStep (loadStep s0 (.start A)) (.start B)).cancelled } A rA h2A
    rw [hstep]
    rfl
  · show (loadStep (loadStep (loadStep (loadStep s0 (.start A)) (.start B))
      (.resolve A rA)) (.resolve B rB)).view = _
    rw [loadStep_resolve_cancelled _ _ _ h2A, loadStep_resolve_not_cancelled _ _ _ h2B]
    rfl

theorem stale_window_discarded_witness :
    (runLoads ⟨⟨[], [], none, false⟩, none, fun _ => false⟩
        [.start 0, .start 1, .resolve 1 (.ok [] ["10:00"]), .resolve 0 (.fail "x")]).view =
      applyResult ⟨[], [], none, true⟩ (.ok [] ["10:00"]) :=
  (stale_window_discarded ⟨⟨[], [], none, false⟩, none, fun _ => false⟩ 0 1
    (.fail "x") (.ok [] ["10:00"]) (by decide) (by simp) rfl).1

end EVCharge
